import Mathlib

/-!
Verification of the soslines spherical-canvas rendering engine.

The development shallowly embeds the engine (file soslines.py): the
projection utilities, the unit-vector grid, the Porter-Duff compositor
acting on the coverage mask and the RGBA buffer, and the rasterizer
primitives in their full-scan and bounding-box forms.

Modelling conventions:
* numpy double-precision arithmetic is modelled by exact arithmetic
  (`ℝ` for the geometric pipeline, `ℚ` for the compositor values, which
  the code only ever builds from byte values, 0, 1, `+`, `*` and `/`);
* a numpy `astype(uint8)` store of a nonnegative in-range float is
  truncation toward zero, modelled by `Int.toNat ∘ Int.floor` followed
  by the wrap-around `% 256` of a C narrowing cast;
* the mask (`self.canvas`) and the RGBA buffer are total functions on
  `ℕ × ℕ` indices; the operators only read and write indices inside the
  `height × 2·height` grid, exactly as the array code does.
-/

open Real

noncomputable section

/-! ### Projection utilities (soslines.py lines 6-19) -/

/-- Latitude of the center of pixel row `row` for a canvas of the given
height: `90 - 180 * (row + 0.5) / height`. -/
def row2lat (height : ℕ) (row : ℕ) : ℝ :=
  90 - 180 * ((row : ℝ) + 0.5) / (height : ℝ)

/-- Row index holding latitude `lat`: `int(floor((90 - lat) * height / 180))`. -/
def lat2row (height : ℕ) (lat : ℝ) : ℤ :=
  ⌊(90 - lat) * (height : ℝ) / 180⌋

/-- Longitude of the center of pixel column `col`:
`180 * (col + 0.5) / height - 180`. -/
def col2lon (height : ℕ) (col : ℕ) : ℝ :=
  180 * ((col : ℝ) + 0.5) / (height : ℝ) - 180

/-- Column index holding longitude `lon`:
`int(floor((lon + 180) * height / 180))`. -/
def lon2col (height : ℕ) (lon : ℝ) : ℤ :=
  ⌊(lon + 180) * (height : ℝ) / 180⌋

/-! ### Vectors and the latitude/longitude conversions (lines 22-36) -/

/-- A 3-vector of doubles, as used for the unit direction vectors. -/
structure Vec3 where
  x : ℝ
  y : ℝ
  z : ℝ
deriving DecidableEq

def Vec3.dot (u v : Vec3) : ℝ := u.x * v.x + u.y * v.y + u.z * v.z

/-- numpy cross product of two 3-vectors. -/
def Vec3.cross (u v : Vec3) : Vec3 :=
  ⟨u.y * v.z - u.z * v.y, u.z * v.x - u.x * v.z, u.x * v.y - u.y * v.x⟩

/-- Squared Euclidean norm, `np.sum(v**2)`. -/
def Vec3.norm2 (v : Vec3) : ℝ := v.x ^ 2 + v.y ^ 2 + v.z ^ 2

def Vec3.smul (k : ℝ) (v : Vec3) : Vec3 := ⟨k * v.x, k * v.y, k * v.z⟩

def Vec3.add (u v : Vec3) : Vec3 := ⟨u.x + v.x, u.y + v.y, u.z + v.z⟩

/-- Componentwise division by the Euclidean norm, `v / np.sqrt(np.sum(v**2))`.
On the zero vector the code divides by zero; in the real-number model the
result is the zero vector (numpy would produce NaNs, equally meaningless). -/
def Vec3.normalize (v : Vec3) : Vec3 := Vec3.smul (Real.sqrt v.norm2)⁻¹ v

/-- The two-argument arctangent `np.arctan2 y x`, realised as the argument
of the complex number `x + y*I`; its range is `(-π, π]` and
`atan2 0 0 = 0`, matching the C library convention. -/
def atan2 (y x : ℝ) : ℝ := Complex.arg ⟨x, y⟩

/-- Unit direction vector of a latitude/longitude pair in degrees
(soslines.py lines 22-28). -/
def latlon2vec (lat lon : ℝ) : Vec3 :=
  ⟨Real.cos (lat * π / 180) * Real.cos (lon * π / 180),
   Real.cos (lat * π / 180) * Real.sin (lon * π / 180),
   Real.sin (lat * π / 180)⟩

/-- Recover latitude and longitude (degrees) from a direction vector
(soslines.py lines 31-36). -/
def vec2latlon (v : Vec3) : ℝ × ℝ :=
  (atan2 v.z (Real.sqrt (v.x ^ 2 + v.y ^ 2)) * 180 / π,
   atan2 v.y v.x * 180 / π)

/-! ### Pixels, colors and the compositor (lines 92-108) -/

/-- An RGBA pixel of the `uint8` buffer; each field is a byte value. -/
structure Pixel where
  r : ℕ
  g : ℕ
  b : ℕ
  a : ℕ
deriving DecidableEq

/-- A draw color `(R,G,B,A)`, a tuple of byte values. -/
structure Color where
  r : ℕ
  g : ℕ
  b : ℕ
  a : ℕ
deriving DecidableEq

/-- Store a nonnegative double into a `uint8` cell: C truncation toward
zero (floor, for nonnegative values) with narrowing modulo 256. -/
def toUint8 (q : ℚ) : ℕ := (Int.toNat ⌊q⌋) % 256

/-- One pixel of `transfer_canvas_to_rgba` (soslines.py lines 92-108):
`alpha = color[3]/255 * mask`, `alpha_over = alpha + (1-alpha)*a/255`;
where `alpha_over > 0` the top and bottom weights are divided by
`alpha_over`, elsewhere `alpha_top` stays `0` and `alpha_bottom` stays
undivided, exactly as in the masked numpy assignments. -/
def flushPixel (c : Color) (mask : ℚ) (p : Pixel) : Pixel :=
  let alpha : ℚ := (c.a : ℚ) / 255 * mask
  let alphaOver : ℚ := alpha + (1 - alpha) * (p.a : ℚ) / 255
  let alphaTop : ℚ := if 0 < alphaOver then alpha / alphaOver else 0
  let alphaBottom : ℚ :=
    if 0 < alphaOver then (1 - alpha) * ((p.a : ℚ) / 255) / alphaOver
    else (1 - alpha) * ((p.a : ℚ) / 255)
  { r := toUint8 (alphaTop * (c.r : ℚ) + alphaBottom * (p.r : ℚ))
    g := toUint8 (alphaTop * (c.g : ℚ) + alphaBottom * (p.g : ℚ))
    b := toUint8 (alphaTop * (c.b : ℚ) + alphaBottom * (p.b : ℚ))
    a := toUint8 (alphaOver * 255) }

/-- One pixel of the direct 50/50 highlight blend performed by `disk`
(soslines.py lines 330-331): red and alpha become
`0.5 * old + 0.5 * 255`, green and blue are untouched. -/
def highlightPixel (p : Pixel) : Pixel :=
  { r := toUint8 ((1 : ℚ)/2 * (p.r : ℚ) + (1 : ℚ)/2 * 255)
    g := p.g
    b := p.b
    a := toUint8 ((1 : ℚ)/2 * (p.a : ℚ) + (1 : ℚ)/2 * 255) }

/-- The mutable state of a `Canvas`: the coverage mask (`self.canvas`)
and the RGBA buffer (`self.rgba`), indexed by row and column. -/
structure CanvasState where
  mask : ℕ → ℕ → ℚ
  rgba : ℕ → ℕ → Pixel

/-- `transfer_canvas_to_rgba(color)`: every pixel is blended through
`flushPixel` and the whole mask is reset to zero (line 108). -/
def transfer_canvas_to_rgba (c : Color) (s : CanvasState) : CanvasState :=
  { mask := fun _ _ => 0
    rgba := fun row col => flushPixel c (s.mask row col) (s.rgba row col) }

/-! ### The precomputed direction grid (lines 77-90) -/

/-- `self.xyz[row,col]`: the unit vector of the pixel center, built in
`__init__` from `row2lat`/`col2lon` with the same trigonometry as
`latlon2vec`. -/
def xyz (height row col : ℕ) : Vec3 :=
  latlon2vec (row2lat height row) (col2lon height col)

/-! ### Full-scan rasterizers (lines 115-185) -/

/-- Pixel-selection test of `disk_simple` (lines 115-133): grid pixels
whose dot product with the center beats `cos(radius·π/180)`. -/
def diskSimpleSel (height : ℕ) (lat lon diameter : ℝ) (row col : ℕ) : Prop :=
  row < height ∧ col < 2 * height ∧
    Real.cos (0.5 * diameter * π / 180) < (xyz height row col).dot (latlon2vec lat lon)

open Classical in
/-- `disk_simple` with `transfer=False`: selected mask entries are
overwritten with `1.0`, everything else is untouched. -/
def disk_simple (height : ℕ) (lat lon diameter : ℝ) (s : CanvasState) : CanvasState :=
  { mask := fun row col =>
      if diskSimpleSel height lat lon diameter row col then 1 else s.mask row col
    rgba := s.rgba }

/-- Pixel-selection test of `circle_simple` (lines 137-155): the annulus
`dot_limit1 < dot < dot_limit0`. -/
def circleSimpleSel (height : ℕ) (lat lon diameter line_width : ℝ) (row col : ℕ) : Prop :=
  row < height ∧ col < 2 * height ∧
    ((xyz height row col).dot (latlon2vec lat lon) <
        Real.cos ((0.5 * diameter - 0.5 * line_width) * π / 180) ∧
      Real.cos ((0.5 * diameter + 0.5 * line_width) * π / 180) <
        (xyz height row col).dot (latlon2vec lat lon))

open Classical in
/-- `circle_simple` with `transfer=False`. -/
def circle_simple (height : ℕ) (lat lon diameter line_width : ℝ) (s : CanvasState) :
    CanvasState :=
  { mask := fun row col =>
      if circleSimpleSel height lat lon diameter line_width row col then 1
      else s.mask row col
    rgba := s.rgba }

/-- Great-circle plane normal used by the line primitives (lines 171-172,
209-210, 276-278): the normalized cross product of the endpoint vectors. -/
def lineOrth (a b : Vec3) : Vec3 := (a.cross b).normalize

def lineAlongA (a b : Vec3) : Vec3 := (lineOrth a b).cross a

def lineAlongB (a b : Vec3) : Vec3 := (lineOrth a b).cross b

/-- Strip test of `line_simple` (line 181): inside the angular strip and
angularly between the endpoints. -/
def lineSimpleSel (height : ℕ) (lat_a lon_a lat_b lon_b line_width : ℝ)
    (row col : ℕ) : Prop :=
  let a := latlon2vec lat_a lon_a
  let b := latlon2vec lat_b lon_b
  let p := xyz height row col
  row < height ∧ col < 2 * height ∧
    (|p.dot (lineOrth a b)| < Real.sin (0.5 * line_width * π / 180) ∧
      0 < p.dot (lineAlongA a b) ∧ p.dot (lineAlongB a b) < 0)

open Classical in
/-- `line_simple` with `transfer=False`. -/
def line_simple (height : ℕ) (lat_a lon_a lat_b lon_b line_width : ℝ)
    (s : CanvasState) : CanvasState :=
  { mask := fun row col =>
      if lineSimpleSel height lat_a lon_a lat_b lon_b line_width row col then 1
      else s.mask row col
    rgba := s.rgba }

/-! ### Bounding boxes and the bounded rasterizers (lines 187-334) -/

/-- A row/column scan rectangle `[r0,r1) × [c0,c1)`. -/
structure Box where
  r0 : ℤ
  r1 : ℤ
  c0 : ℤ
  c1 : ℤ
deriving DecidableEq

def inBox (bx : Box) (row col : ℕ) : Prop :=
  bx.r0 ≤ (row : ℤ) ∧ (row : ℤ) < bx.r1 ∧ bx.c0 ≤ (col : ℤ) ∧ (col : ℤ) < bx.c1

open Classical in
/-- The scan rectangle of `line_segment_internal` (lines 216-240): the
padded lat/lon envelope of the endpoints with the three sequential
clamping hacks (north pole, south pole, lon=180 border). -/
def lineSegBox (height : ℕ) (lat_a lon_a lat_b lon_b line_width : ℝ) : Box :=
  let scale : ℝ := 1 / Real.cos (max |lat_a| |lat_b| * π / 180)
  let min_lat0 := min lat_a lat_b - 0.5 * line_width
  let max_lat0 := max lat_a lat_b + 0.5 * line_width
  let min_lon0 := min lon_a lon_b - 0.5 * line_width * scale
  let max_lon0 := max lon_a lon_b + 0.5 * line_width * scale
  let max_lat1 := if 85 < max_lat0 then (90 : ℝ) else max_lat0
  let min_lon1 := if 85 < max_lat0 then (-180 : ℝ) else min_lon0
  let max_lon1 := if 85 < max_lat0 then (180 : ℝ) else max_lon0
  let min_lat2 := if min_lat0 < -85 then (-90 : ℝ) else min_lat0
  let min_lon2 := if min_lat0 < -85 then (-180 : ℝ) else min_lon1
  let max_lon2 := if min_lat0 < -85 then (180 : ℝ) else max_lon1
  let wrap :=
    180 - 0.5 * line_width * scale < max_lon2 ∨ min_lon2 < -180 + 0.5 * line_width * scale
  let min_lon3 := if wrap then (-180 : ℝ) else min_lon2
  let max_lon3 := if wrap then (180 : ℝ) else max_lon2
  { r0 := max (lat2row height max_lat1 - 1) 0
    r1 := min (lat2row height min_lat2 + 2) (height : ℤ)
    c0 := max (lon2col height min_lon3 - 1) 0
    c1 := min (lon2col height max_lon3 + 2) (2 * (height : ℤ)) }

/-- Pixel test of `line_segment_internal` inside its rectangle
(lines 244-258): the strip test plus the two endpoint disk caps. -/
def lineSegSel (height : ℕ) (lat_a lon_a lat_b lon_b line_width : ℝ)
    (row col : ℕ) : Prop :=
  let a := latlon2vec lat_a lon_a
  let b := latlon2vec lat_b lon_b
  let p := xyz height row col
  let d1 := p.dot (lineOrth a b)
  let d2 := p.dot (lineAlongA a b)
  let d3 := p.dot (lineAlongB a b)
  let dlw := Real.sin (0.5 * line_width * π / 180)
  (|d1| < dlw ∧ 0 < d2 ∧ d3 < 0) ∨ d1 ^ 2 + d2 ^ 2 < dlw ^ 2 ∨ d1 ^ 2 + d3 ^ 2 < dlw ^ 2

open Classical in
/-- `line_segment_internal` with `transfer=False` (lines 187-263): inside
its rectangle the mask is merged by pointwise maximum with the 0/1 local
canvas; nothing else is touched, and the RGBA buffer is untouched. -/
def line_segment_internal (height : ℕ) (lat_a lon_a lat_b lon_b line_width : ℝ)
    (s : CanvasState) : CanvasState :=
  let bx := lineSegBox height lat_a lon_a lat_b lon_b line_width
  { mask := fun row col =>
      if inBox bx row col then
        max (s.mask row col)
          (if lineSegSel height lat_a lon_a lat_b lon_b line_width row col then 1 else 0)
      else s.mask row col
    rgba := s.rgba }

/-- The scan rectangle of `disk` (lines 309-319): the lat/lon envelope of
the cap, with longitude padding scaled by `1/cos(lat)`; no pole or
anti-meridian clamping. -/
def diskBox (height : ℕ) (lat lon diameter : ℝ) : Box :=
  let scale : ℝ := 1 / Real.cos (lat * π / 180)
  { r0 := max (lat2row height (lat + 0.5 * diameter) - 1) 0
    r1 := min (lat2row height (lat - 0.5 * diameter) + 2) (height : ℤ)
    c0 := max (lon2col height (lon - 0.5 * diameter * scale) - 1) 0
    c1 := min (lon2col height (lon + 0.5 * diameter * scale) + 2) (2 * (height : ℤ)) }

/-- Pixels the bounded `disk` sets to one: inside its rectangle and
passing the same dot-product test as `disk_simple`. -/
def diskSel (height : ℕ) (lat lon diameter : ℝ) (row col : ℕ) : Prop :=
  inBox (diskBox height lat lon diameter) row col ∧
    Real.cos (0.5 * diameter * π / 180) < (xyz height row col).dot (latlon2vec lat lon)

open Classical in
/-- `disk` with `transfer=False` (lines 301-331): pointwise-maximum merge
of the cap coverage inside the rectangle, plus the direct 50/50 highlight
blend of the red and alpha channels inside the same rectangle.  The
`color` argument is unused on this path. -/
def disk (height : ℕ) (lat lon diameter : ℝ) (color : Color) (s : CanvasState) :
    CanvasState :=
  let bx := diskBox height lat lon diameter
  { mask := fun row col =>
      if inBox bx row col then
        max (s.mask row col)
          (if Real.cos (0.5 * diameter * π / 180) <
              (xyz height row col).dot (latlon2vec lat lon) then 1 else 0)
      else s.mask row col
    rgba := fun row col =>
      if inBox bx row col then highlightPixel (s.rgba row col) else s.rgba row col }

/-! ### Great-circle subdivision in `line` (lines 268-298) -/

/-- Python `int()` applied to a double: truncation toward zero. -/
def pyInt (x : ℝ) : ℤ := if 0 ≤ x then ⌊x⌋ else -⌊-x⌋

/-- `sin_theta = np.sqrt(np.sum(np.cross(vec_a, vec_b)**2))` (line 277). -/
def lineSinTheta (a b : Vec3) : ℝ := Real.sqrt (a.cross b).norm2

/-- `angle = np.arctan2(sin_theta, cos_theta) * 180 / np.pi` (line 282). -/
def lineAngle (a b : Vec3) : ℝ := atan2 (lineSinTheta a b) (a.dot b) * 180 / π

/-- `divisions = int(angle / max_step + 1)` with `max_step = 5` (line 285). -/
def lineDivisions (a b : Vec3) : ℤ := pyInt (lineAngle a b / 5 + 1)

/-- `step = angle / divisions` (line 286). -/
def lineStep (a b : Vec3) : ℝ := lineAngle a b / ((lineDivisions a b : ℤ) : ℝ)

/-- The rotated sub-segment endpoint
`vec_a * cos(d*step*π/180) + along_a * sin(d*step*π/180)` (lines 288-289). -/
def lineSubpoint (a b : Vec3) (d : ℕ) : Vec3 :=
  (Vec3.smul (Real.cos ((d : ℝ) * lineStep a b * π / 180)) a).add
    (Vec3.smul (Real.sin ((d : ℝ) * lineStep a b * π / 180)) (lineAlongA a b))

/-! ### Auxiliary definitions used in statements -/

open Classical in
/-- The 0-or-1 coverage value a primitive contributes at one pixel. -/
def covIndicator (P : Prop) : ℚ := if P then 1 else 0

/-- The freshly constructed canvas: zero mask, all pixels `(0,0,0,0)`. -/
def zeroCanvas : CanvasState :=
  { mask := fun _ _ => 0, rgba := fun _ _ => ⟨0, 0, 0, 0⟩ }

/-- The stored alpha byte as the specification words it:
`round(combinedA * 255)` (the code actually truncates). -/
def specRoundedAlpha (combinedA : ℚ) : ℤ := round (combinedA * 255)

/-- A canvas state with full coverage and a uniformly half-transparent
black RGBA buffer; used to exhibit the truncation/rounding mismatch. -/
def halfAlphaCanvas : CanvasState :=
  { mask := fun _ _ => 1, rgba := fun _ _ => ⟨0, 0, 0, 128⟩ }

/-- Per-pixel invariant of every reachable canvas pixel: the mask value
is 0 or 1, all channels are bytes, and a pixel with zero alpha is fully
zero.  `PixelReachable` below shows each drawing/flush step preserves it. -/
def PixelInv (m : ℚ) (p : Pixel) : Prop :=
  (m = 0 ∨ m = 1) ∧ p.r ≤ 255 ∧ p.g ≤ 255 ∧ p.b ≤ 255 ∧ p.a ≤ 255 ∧
    (p.a = 0 → p.r = 0 ∧ p.g = 0 ∧ p.b = 0)

/-- All (mask value, pixel) pairs reachable at a fixed pixel through the
engine's operations: construction, a rasterizer writing 0/1 coverage
(overwrite-by-1 or pointwise maximum, both covered by the two rasterizer
constructors), the `disk` highlight blend, and a flush with a byte color. -/
inductive PixelReachable : ℚ → Pixel → Prop
  | init : PixelReachable 0 ⟨0, 0, 0, 0⟩
  | rasterMax (m c : ℚ) (p : Pixel) (hc : c = 0 ∨ c = 1) :
      PixelReachable m p → PixelReachable (max m c) p
  | rasterSet (m : ℚ) (p : Pixel) :
      PixelReachable m p → PixelReachable 1 p
  | highlight (m : ℚ) (p : Pixel) :
      PixelReachable m p → PixelReachable m (highlightPixel p)
  | flush (m : ℚ) (p : Pixel) (c : Color) (hr : c.r ≤ 255) (hg : c.g ≤ 255)
      (hb : c.b ≤ 255) (ha : c.a ≤ 255) :
      PixelReachable m p → PixelReachable 0 (flushPixel c m p)

/-! ## Theorems -/

/-- C10: for a canvas of positive height, `lat2row` maps every latitude
in `(-90, 90]` to a valid row of `[0, height)` but maps the domain
boundary `-90` to `height`, one past the last row; likewise `lon2col`
maps `[-180, 180)` into `[0, 2*height)` but maps `180` to `2*height`,
one past the last column. -/
theorem C10_boundary_indices (height : ℕ) (hH : 0 < height) (lat lon : ℝ) :
    (-90 < lat → lat ≤ 90 →
      0 ≤ lat2row height lat ∧ lat2row height lat < height) ∧
    lat2row height (-90) = height ∧
    (-180 ≤ lon → lon < 180 →
      0 ≤ lon2col height lon ∧ lon2col height lon < 2 * height) ∧
    lon2col height 180 = 2 * height := by
  have hHR : (0 : ℝ) < height := by exact_mod_cast hH
  refine ⟨fun h1 h2 => ⟨?_, ?_⟩, ?_, fun h3 h4 => ⟨?_, ?_⟩, ?_⟩
  · exact Int.floor_nonneg.mpr
      (div_nonneg (mul_nonneg (by linarith) hHR.le) (by norm_num))
  · rw [lat2row, Int.floor_lt]
    push_cast
    rw [div_lt_iff (by norm_num : (0:ℝ) < 180)]
    nlinarith
  · rw [lat2row,
      show (90 - (-90) : ℝ) * (height : ℝ) / 180 = ((height : ℤ) : ℝ) by
        push_cast; ring]
    exact Int.floor_intCast height
  · exact Int.floor_nonneg.mpr
      (div_nonneg (mul_nonneg (by linarith) hHR.le) (by norm_num))
  · rw [lon2col, Int.floor_lt]
    push_cast
    rw [div_lt_iff (by norm_num : (0:ℝ) < 180)]
    nlinarith
  · rw [lon2col,
      show ((180 : ℝ) + 180) * (height : ℝ) / 180 = ((2 * height : ℤ) : ℝ) by
        push_cast; ring]
    exact Int.floor_intCast (2 * height)

/-- C10 witness at `height = 1`, `lat = 0`, `lon = 0`. -/
theorem C10_boundary_indices_witness :
    (0 ≤ lat2row 1 0 ∧ lat2row 1 0 < 1) ∧ lat2row 1 (-90) = 1 ∧
    (0 ≤ lon2col 1 0 ∧ lon2col 1 0 < 2 * 1) ∧ lon2col 1 180 = 2 * 1 := by
  have h := C10_boundary_indices 1 (by norm_num) 0 0
  exact ⟨h.1 (by norm_num) (by norm_num), h.2.1,
    h.2.2.1 (by norm_num) (by norm_num), h.2.2.2⟩

/-- C3: evidence that the line primitives have no InvalidGeometry guard.
At coincident endpoints the great-circle plane normal is the zero vector;
the code then divides it by its zero norm with no check (lines 171-172,
276-278), which in this model yields the zero vector again, and
`line_simple` silently selects no pixel at all instead of signalling. -/
theorem C3_degenerate_endpoints_unguarded :
    (latlon2vec 0 0).cross (latlon2vec 0 0) = ⟨0, 0, 0⟩ ∧
    lineOrth (latlon2vec 0 0) (latlon2vec 0 0) = ⟨0, 0, 0⟩ ∧
    ∀ row col, (line_simple 45 0 0 0 0 5 zeroCanvas).mask row col = 0 := by
  have hcross : (latlon2vec 0 0).cross (latlon2vec 0 0) = ⟨0, 0, 0⟩ := by
    unfold Vec3.cross
    congr 1 <;> ring
  have horth : lineOrth (latlon2vec 0 0) (latlon2vec 0 0) = ⟨0, 0, 0⟩ := by
    rw [lineOrth, hcross]
    simp [Vec3.normalize, Vec3.norm2, Vec3.smul]
  refine ⟨hcross, horth, fun row col => ?_⟩
  have hnot : ¬ lineSimpleSel 45 0 0 0 0 5 row col := by
    intro h
    simp only [lineSimpleSel] at h
    have h2 := h.2.2.2.1
    rw [lineAlongA, horth] at h2
    simp [Vec3.cross, Vec3.dot] at h2
  simp [line_simple, hnot, zeroCanvas]

/-- C9: with `transfer=False`, the highlight blend of `disk` sets red and
alpha inside the bounding rectangle to the truncated `0.5*old + 0.5*255`,
leaves every pixel outside the rectangle unchanged, never changes the
green or blue channel of any pixel, and is independent of the color
argument. -/
theorem C9_disk_highlight_frame (height : ℕ) (lat lon diameter : ℝ)
    (c c2 : Color) (s : CanvasState) (row col : ℕ) :
    (inBox (diskBox height lat lon diameter) row col →
      (disk height lat lon diameter c s).rgba row col =
        { r := toUint8 ((1:ℚ)/2 * (((s.rgba row col).r : ℚ)) + (1:ℚ)/2 * 255)
          g := (s.rgba row col).g
          b := (s.rgba row col).b
          a := toUint8 ((1:ℚ)/2 * (((s.rgba row col).a : ℚ)) + (1:ℚ)/2 * 255) }) ∧
    (¬ inBox (diskBox height lat lon diameter) row col →
      (disk height lat lon diameter c s).rgba row col = s.rgba row col) ∧
    ((disk height lat lon diameter c s).rgba row col).g = (s.rgba row col).g ∧
    ((disk height lat lon diameter c s).rgba row col).b = (s.rgba row col).b ∧
    disk height lat lon diameter c s = disk height lat lon diameter c2 s := by
  refine ⟨fun h => ?_, fun h => ?_, ?_, ?_, rfl⟩
  · simp [disk, h, highlightPixel]
  · simp [disk, h]
  · by_cases h : inBox (diskBox height lat lon diameter) row col <;>
      simp [disk, h, highlightPixel]
  · by_cases h : inBox (diskBox height lat lon diameter) row col <;>
      simp [disk, h, highlightPixel]

/-- Evaluation of the `disk` bounding box on the unit-height canvas with
an equatorial 90-degree disk. -/
theorem diskBox_unit_eval : diskBox 1 0 0 90 = ⟨0, 1, 0, 2⟩ := by
  unfold diskBox lat2row lon2col
  norm_num [Real.cos_zero, Box.mk.injEq]

/-- C9 witness: concrete highlight of a 90-degree equatorial disk on the
unit-height blank canvas. -/
theorem C9_disk_highlight_frame_witness :
    inBox (diskBox 1 0 0 90) 0 0 ∧ ¬ inBox (diskBox 1 0 0 90) 0 5 ∧
    (disk 1 0 0 90 ⟨255, 255, 255, 255⟩ zeroCanvas).rgba 0 0 = ⟨127, 0, 0, 127⟩ ∧
    (disk 1 0 0 90 ⟨255, 255, 255, 255⟩ zeroCanvas).rgba 0 5 = ⟨0, 0, 0, 0⟩ := by
  have hin : inBox (diskBox 1 0 0 90) 0 0 := by
    rw [diskBox_unit_eval]; simp [inBox]
  have hout : ¬ inBox (diskBox 1 0 0 90) 0 5 := by
    rw [diskBox_unit_eval]; simp [inBox]
  have h := C9_disk_highlight_frame 1 0 0 90 ⟨255, 255, 255, 255⟩
    ⟨255, 255, 255, 255⟩ zeroCanvas 0 0
  have h5 := C9_disk_highlight_frame 1 0 0 90 ⟨255, 255, 255, 255⟩
    ⟨255, 255, 255, 255⟩ zeroCanvas 0 5
  refine ⟨hin, hout, ?_, h5.2.1 hout⟩
  rw [h.1 hin]
  norm_num [zeroCanvas, toUint8, Pixel.mk.injEq]
  decide

open Classical in
/-- An overwrite of selected entries with `1.0` equals a pointwise
maximum against the 0-or-1 coverage, whenever the old value is in `[0,1]`. -/
theorem overwrite_eq_max (P : Prop) (m : ℚ) (h0 : 0 ≤ m) (h1 : m ≤ 1) :
    (if P then (1 : ℚ) else m) = max m (covIndicator P) := by
  by_cases h : P
  · rw [if_pos h, covIndicator, if_pos h, max_eq_right h1]
  · rw [if_neg h, covIndicator, if_neg h, max_eq_left h0]

open Classical in
/-- A rectangle-restricted maximum-merge of 0/1 coverage equals a global
pointwise maximum against the conjunction indicator. -/
theorem boundedMerge_eq_max (P Q : Prop) (m : ℚ) (h0 : 0 ≤ m) :
    (if P then max m (if Q then (1 : ℚ) else 0) else m) =
      max m (covIndicator (P ∧ Q)) := by
  by_cases hp : P <;> by_cases hq : Q <;>
    simp [covIndicator, hp, hq, max_eq_left h0]

/-- The coverage indicator only takes the values 0 and 1. -/
theorem covIndicator_zero_or_one (P : Prop) :
    covIndicator P = 0 ∨ covIndicator P = 1 := by
  classical
  by_cases h : P <;> simp [covIndicator, h]

/-- Maximum-merging a 0-or-1 coverage keeps the mask in `[0,1]` and
never decreases it. -/
theorem maxMerge_bounds (m cov : ℚ) (h0 : 0 ≤ m) (h1 : m ≤ 1)
    (hc : cov = 0 ∨ cov = 1) :
    0 ≤ max m cov ∧ max m cov ≤ 1 ∧ m ≤ max m cov := by
  rcases hc with h | h <;> subst h <;>
    exact ⟨le_trans h0 (le_max_left _ _), max_le h1 (by norm_num), le_max_left _ _⟩

/-- C7: every drawing call with `transfer=False` leaves the mask equal to
the pointwise maximum of the prior mask and the primitive's own 0-or-1
coverage (the full-scan primitives overwrite with 1.0, which coincides
with the maximum on an in-range mask); consequently every mask entry
stays in `[0,1]` and never decreases. -/
theorem C7_mask_accumulate_max (height : ℕ) (s : CanvasState)
    (hs : ∀ r k, 0 ≤ s.mask r k ∧ s.mask r k ≤ 1)
    (lat lon lat_b lon_b diameter line_width : ℝ) (c : Color) (row col : ℕ) :
    ((disk_simple height lat lon diameter s).mask row col =
        max (s.mask row col)
          (covIndicator (diskSimpleSel height lat lon diameter row col))) ∧
    ((circle_simple height lat lon diameter line_width s).mask row col =
        max (s.mask row col)
          (covIndicator (circleSimpleSel height lat lon diameter line_width row col))) ∧
    ((line_simple height lat lon lat_b lon_b line_width s).mask row col =
        max (s.mask row col)
          (covIndicator (lineSimpleSel height lat lon lat_b lon_b line_width row col))) ∧
    ((line_segment_internal height lat lon lat_b lon_b line_width s).mask row col =
        max (s.mask row col)
          (covIndicator (inBox (lineSegBox height lat lon lat_b lon_b line_width) row col ∧
            lineSegSel height lat lon lat_b lon_b line_width row col))) ∧
    ((disk height lat lon diameter c s).mask row col =
        max (s.mask row col) (covIndicator (diskSel height lat lon diameter row col))) ∧
    (∀ P : Prop, 0 ≤ max (s.mask row col) (covIndicator P) ∧
      max (s.mask row col) (covIndicator P) ≤ 1 ∧
      s.mask row col ≤ max (s.mask row col) (covIndicator P)) := by
  have h0 := (hs row col).1
  have h1 := (hs row col).2
  refine ⟨?_, ?_, ?_, ?_, ?_, fun P => ?_⟩
  · exact overwrite_eq_max _ _ h0 h1
  · exact overwrite_eq_max _ _ h0 h1
  · exact overwrite_eq_max _ _ h0 h1
  · exact boundedMerge_eq_max _ _ _ h0
  · simp only [disk, diskSel]
    exact boundedMerge_eq_max _ _ _ h0
  · exact maxMerge_bounds _ _ h0 h1 (covIndicator_zero_or_one P)

/-- C7 witness on the blank canvas. -/
theorem C7_mask_accumulate_max_witness :
    (disk_simple 1 0 0 90 zeroCanvas).mask 0 0 =
      max (zeroCanvas.mask 0 0) (covIndicator (diskSimpleSel 1 0 0 90 0 0)) ∧
    (disk 1 0 0 90 ⟨255, 255, 255, 255⟩ zeroCanvas).mask 0 0 =
      max (zeroCanvas.mask 0 0) (covIndicator (diskSel 1 0 0 90 0 0)) := by
  have h := C7_mask_accumulate_max 1 zeroCanvas
    (fun _ _ => by norm_num [zeroCanvas]) 0 0 0 0 90 1 ⟨255, 255, 255, 255⟩ 0 0
  exact ⟨h.1, h.2.2.2.2.1⟩

/-- A `uint8` store never exceeds 255. -/
theorem toUint8_le (q : ℚ) : toUint8 q ≤ 255 := by
  simp only [toUint8]
  omega

/-- A `uint8` store of a value in `[1, 255]` is in `[1, 255]`. -/
theorem toUint8_one_le (q : ℚ) (h1 : 1 ≤ q) (h2 : q ≤ 255) :
    1 ≤ toUint8 q ∧ toUint8 q ≤ 255 := by
  have hf1 : (1 : ℤ) ≤ ⌊q⌋ := Int.le_floor.mpr (by exact_mod_cast h1)
  have hf2 : ⌊q⌋ ≤ (255 : ℤ) := by
    calc ⌊q⌋ ≤ ⌊(255 : ℚ)⌋ := Int.floor_mono h2
    _ = 255 := by norm_num
  simp only [toUint8]
  omega

/-- A positive natural number casts to a rational at least one. -/
theorem one_le_cast_of_pos {n : ℕ} (h : (0 : ℚ) < (n : ℚ)) : (1 : ℚ) ≤ (n : ℚ) := by
  have hn : 0 < n := by exact_mod_cast h
  exact_mod_cast hn

/-- A `uint8` store of a byte value is that byte. -/
theorem toUint8_natCast (n : ℕ) (h : n ≤ 255) : toUint8 ((n : ℚ)) = n := by
  rw [toUint8, Int.floor_natCast, Int.toNat_natCast]
  exact Nat.mod_eq_of_lt (by omega)

set_option maxHeartbeats 1000000 in
/-- Every reachable (mask value, pixel) pair satisfies the canvas pixel
invariant: the mask is 0 or 1, channels are bytes, and a zero-alpha pixel
is fully zero. -/
theorem pixelReachable_inv {m : ℚ} {p : Pixel} (h : PixelReachable m p) :
    PixelInv m p := by
  induction h with
  | init => simp [PixelInv]
  | rasterMax m c p hc _ ih =>
    refine ⟨?_, ih.2⟩
    rcases ih.1 with h1 | h1 <;> rcases hc with h2 | h2 <;>
      rw [h1, h2] <;> norm_num [max_def]
  | rasterSet m p _ ih => exact ⟨Or.inr rfl, ih.2⟩
  | highlight m p _ ih =>
    obtain ⟨h1, hr, hg, hb, ha, _⟩ := ih
    have hpa : ((p.a : ℚ)) ≤ 255 := by exact_mod_cast ha
    refine ⟨h1, toUint8_le _, hg, hb, toUint8_le _, fun h0 => absurd h0 ?_⟩
    have : 1 ≤ (highlightPixel p).a := by
      refine (toUint8_one_le _ ?_ ?_).1
      · have : (0 : ℚ) ≤ (p.a : ℚ) := Nat.cast_nonneg _
        linarith
      · linarith
    omega
  | flush m p c hcr hcg hcb hca _ ih =>
    obtain ⟨hm01, hpr, hpg, hpb, hpa, _⟩ := ih
    have hm0 : (0 : ℚ) ≤ m := by rcases hm01 with h | h <;> rw [h] <;> norm_num
    have hm1 : m ≤ 1 := by rcases hm01 with h | h <;> rw [h] <;> norm_num
    have hcaQ : ((c.a : ℚ)) ≤ 255 := by exact_mod_cast hca
    have hpaQ : ((p.a : ℚ)) ≤ 255 := by exact_mod_cast hpa
    have hpaQ0 : (0 : ℚ) ≤ (p.a : ℚ) := Nat.cast_nonneg _
    have hA0 : (0 : ℚ) ≤ (c.a : ℚ) / 255 * m :=
      mul_nonneg (by positivity) hm0
    have hA1 : (c.a : ℚ) / 255 * m ≤ 1 := by
      have h1 : (c.a : ℚ) / 255 ≤ 1 := by
        rw [div_le_one (by norm_num : (0:ℚ) < 255)]; exact hcaQ
      nlinarith
    have hfac : (0 : ℚ) ≤ 1 - (c.a : ℚ) / 255 * m := by linarith
    refine ⟨Or.inl rfl, toUint8_le _, toUint8_le _, toUint8_le _, toUint8_le _,
      fun h0 => ?_⟩
    by_cases hpos :
        (0 : ℚ) < (c.a : ℚ) / 255 * m + (1 - (c.a : ℚ) / 255 * m) * (p.a : ℚ) / 255
    · exfalso
      have h255 : (1 : ℚ) ≤
          ((c.a : ℚ) / 255 * m + (1 - (c.a : ℚ) / 255 * m) * (p.a : ℚ) / 255) * 255 := by
        clear h0
        rcases hm01 with hm | hm
        · rw [hm] at hpos ⊢
          have hp0 : (0 : ℚ) < (p.a : ℚ) := by nlinarith
          have hp1 := one_le_cast_of_pos hp0
          nlinarith
        · rcases Nat.eq_zero_or_pos c.a with hc0 | hc1
          · rw [hm] at hpos ⊢
            rw [hc0] at hpos ⊢
            push_cast at hpos ⊢
            have hp0 : (0 : ℚ) < (p.a : ℚ) := by nlinarith
            have hp1 := one_le_cast_of_pos hp0
            nlinarith
          · have h1c : (1 : ℚ) ≤ (c.a : ℚ) := by exact_mod_cast hc1
            have hsub : (0 : ℚ) ≤ (1 - (c.a : ℚ) / 255 * m) * (p.a : ℚ) / 255 :=
              div_nonneg (mul_nonneg hfac hpaQ0) (by norm_num)
            rw [hm] at hsub ⊢
            nlinarith
      have hle : ((c.a : ℚ) / 255 * m + (1 - (c.a : ℚ) / 255 * m) * (p.a : ℚ) / 255) * 255
          ≤ 255 := by
        clear h0
        have hq : (p.a : ℚ) / 255 ≤ 1 := by
          rw [div_le_one (by norm_num : (0:ℚ) < 255)]; exact hpaQ
        nlinarith
      have h1 : 1 ≤ (flushPixel c m p).a := by
        simp only [flushPixel]
        exact (toUint8_one_le _ h255 hle).1
      omega
    · clear h0
      have hAO0 : (0 : ℚ) ≤
          (c.a : ℚ) / 255 * m + (1 - (c.a : ℚ) / 255 * m) * (p.a : ℚ) / 255 :=
        add_nonneg hA0 (div_nonneg (mul_nonneg hfac hpaQ0) (by norm_num))
      have hpos2 : (c.a : ℚ) / 255 * m + (1 - (c.a : ℚ) / 255 * m) * (p.a : ℚ) / 255
          ≤ 0 := not_lt.mp hpos
      have hBnn : (0 : ℚ) ≤ (1 - (c.a : ℚ) / 255 * m) * (p.a : ℚ) / 255 :=
        div_nonneg (mul_nonneg hfac hpaQ0) (by norm_num)
      have hAz1 : (c.a : ℚ) / 255 * m = 0 := by linarith
      have hAz2 : (1 - (c.a : ℚ) / 255 * m) * (p.a : ℚ) / 255 = 0 := by linarith
      have hpz : (p.a : ℚ) = 0 := by
        rw [hAz1] at hAz2
        linarith
      simp only [flushPixel, if_neg hpos]
      rw [hAz1, hpz]
      norm_num [toUint8]

/-- C1 (amended): the flush implements Porter-Duff over with the stated
weights, except that the stored bytes are truncated toward zero (numpy
`astype(uint8)`), not rounded: on an in-range canvas, wherever
`combinedA > 0` each channel becomes the truncation of
`topWeight*color + bottomWeight*existing` and alpha the truncation of
`combinedA*255`; wherever `combinedA = 0` the pixel ends at `(0,0,0,0)`,
and the whole mask is reset to zero. -/
theorem C1_flush_porter_duff (c : Color) (hca : c.a ≤ 255) (s : CanvasState)
    (hm : ∀ r k, 0 ≤ s.mask r k ∧ s.mask r k ≤ 1) (row col : ℕ) :
    (transfer_canvas_to_rgba c s).mask row col = 0 ∧
    ((0 : ℚ) < (c.a : ℚ) / 255 * s.mask row col +
        (1 - (c.a : ℚ) / 255 * s.mask row col) * ((s.rgba row col).a : ℚ) / 255 →
      (transfer_canvas_to_rgba c s).rgba row col =
        { r := toUint8 ((c.a : ℚ) / 255 * s.mask row col /
                  ((c.a : ℚ) / 255 * s.mask row col +
                    (1 - (c.a : ℚ) / 255 * s.mask row col) * ((s.rgba row col).a : ℚ) / 255) *
                  (c.r : ℚ) +
                (1 - (c.a : ℚ) / 255 * s.mask row col) * (((s.rgba row col).a : ℚ) / 255) /
                  ((c.a : ℚ) / 255 * s.mask row col +
                    (1 - (c.a : ℚ) / 255 * s.mask row col) * ((s.rgba row col).a : ℚ) / 255) *
                  ((s.rgba row col).r : ℚ))
          g := toUint8 ((c.a : ℚ) / 255 * s.mask row col /
                  ((c.a : ℚ) / 255 * s.mask row col +
                    (1 - (c.a : ℚ) / 255 * s.mask row col) * ((s.rgba row col).a : ℚ) / 255) *
                  (c.g : ℚ) +
                (1 - (c.a : ℚ) / 255 * s.mask row col) * (((s.rgba row col).a : ℚ) / 255) /
                  ((c.a : ℚ) / 255 * s.mask row col +
                    (1 - (c.a : ℚ) / 255 * s.mask row col) * ((s.rgba row col).a : ℚ) / 255) *
                  ((s.rgba row col).g : ℚ))
          b := toUint8 ((c.a : ℚ) / 255 * s.mask row col /
                  ((c.a : ℚ) / 255 * s.mask row col +
                    (1 - (c.a : ℚ) / 255 * s.mask row col) * ((s.rgba row col).a : ℚ) / 255) *
                  (c.b : ℚ) +
                (1 - (c.a : ℚ) / 255 * s.mask row col) * (((s.rgba row col).a : ℚ) / 255) /
                  ((c.a : ℚ) / 255 * s.mask row col +
                    (1 - (c.a : ℚ) / 255 * s.mask row col) * ((s.rgba row col).a : ℚ) / 255) *
                  ((s.rgba row col).b : ℚ))
          a := toUint8 (((c.a : ℚ) / 255 * s.mask row col +
                  (1 - (c.a : ℚ) / 255 * s.mask row col) * ((s.rgba row col).a : ℚ) / 255) *
                255) }) ∧
    ((c.a : ℚ) / 255 * s.mask row col +
        (1 - (c.a : ℚ) / 255 * s.mask row col) * ((s.rgba row col).a : ℚ) / 255 = 0 →
      (transfer_canvas_to_rgba c s).rgba row col = ⟨0, 0, 0, 0⟩) := by
  refine ⟨rfl, fun hpos => ?_, fun hzero => ?_⟩
  · simp only [transfer_canvas_to_rgba, flushPixel, if_pos hpos]
  · have hm0 := (hm row col).1
    have hm1 := (hm row col).2
    have hcaQ : ((c.a : ℚ)) ≤ 255 := by exact_mod_cast hca
    have hA0 : (0 : ℚ) ≤ (c.a : ℚ) / 255 * s.mask row col :=
      mul_nonneg (by positivity) hm0
    have hA1 : (c.a : ℚ) / 255 * s.mask row col ≤ 1 := by
      have h1 : (c.a : ℚ) / 255 ≤ 1 := by
        rw [div_le_one (by norm_num : (0:ℚ) < 255)]; exact hcaQ
      nlinarith
    have hpaQ0 : (0 : ℚ) ≤ ((s.rgba row col).a : ℚ) := Nat.cast_nonneg _
    have hfac : (0 : ℚ) ≤ 1 - (c.a : ℚ) / 255 * s.mask row col := by linarith
    have hBnn : (0 : ℚ) ≤
        (1 - (c.a : ℚ) / 255 * s.mask row col) * ((s.rgba row col).a : ℚ) / 255 :=
      div_nonneg (mul_nonneg hfac hpaQ0) (by norm_num)
    have hAz1 : (c.a : ℚ) / 255 * s.mask row col = 0 := by linarith
    have hAz2 : (1 - (c.a : ℚ) / 255 * s.mask row col) * ((s.rgba row col).a : ℚ) / 255
        = 0 := by linarith
    have hpz : ((s.rgba row col).a : ℚ) = 0 := by
      rw [hAz1] at hAz2
      linarith
    have hnot : ¬ (0 : ℚ) < (c.a : ℚ) / 255 * s.mask row col +
        (1 - (c.a : ℚ) / 255 * s.mask row col) * ((s.rgba row col).a : ℚ) / 255 := by
      rw [hzero]
      exact lt_irrefl 0
    simp only [transfer_canvas_to_rgba, flushPixel, if_neg hnot]
    rw [hAz1, hpz]
    norm_num [toUint8]

/-- C1 witness: a concrete flush on the full-coverage half-alpha canvas,
taking the `combinedA > 0` branch. -/
theorem C1_flush_porter_duff_witness :
    (transfer_canvas_to_rgba ⟨255, 255, 255, 128⟩ halfAlphaCanvas).mask 0 0 = 0 ∧
    (transfer_canvas_to_rgba ⟨255, 255, 255, 128⟩ halfAlphaCanvas).rgba 0 0 =
      { r := toUint8 ((128 : ℚ) / 255 * 1 /
                ((128 : ℚ) / 255 * 1 + (1 - (128 : ℚ) / 255 * 1) * (128 : ℚ) / 255) * 255 +
              (1 - (128 : ℚ) / 255 * 1) * ((128 : ℚ) / 255) /
                ((128 : ℚ) / 255 * 1 + (1 - (128 : ℚ) / 255 * 1) * (128 : ℚ) / 255) * 0)
        g := toUint8 ((128 : ℚ) / 255 * 1 /
                ((128 : ℚ) / 255 * 1 + (1 - (128 : ℚ) / 255 * 1) * (128 : ℚ) / 255) * 255 +
              (1 - (128 : ℚ) / 255 * 1) * ((128 : ℚ) / 255) /
                ((128 : ℚ) / 255 * 1 + (1 - (128 : ℚ) / 255 * 1) * (128 : ℚ) / 255) * 0)
        b := toUint8 ((128 : ℚ) / 255 * 1 /
                ((128 : ℚ) / 255 * 1 + (1 - (128 : ℚ) / 255 * 1) * (128 : ℚ) / 255) * 255 +
              (1 - (128 : ℚ) / 255 * 1) * ((128 : ℚ) / 255) /
                ((128 : ℚ) / 255 * 1 + (1 - (128 : ℚ) / 255 * 1) * (128 : ℚ) / 255) * 0)
        a := toUint8 (((128 : ℚ) / 255 * 1 +
                (1 - (128 : ℚ) / 255 * 1) * (128 : ℚ) / 255) * 255) } ∧
    (transfer_canvas_to_rgba ⟨255, 255, 255, 255⟩ zeroCanvas).rgba 0 0 = ⟨0, 0, 0, 0⟩ := by
  have h := C1_flush_porter_duff ⟨255, 255, 255, 128⟩ (by norm_num) halfAlphaCanvas
    (fun _ _ => by norm_num [halfAlphaCanvas]) 0 0
  refine ⟨h.1, h.2.1 (by norm_num [halfAlphaCanvas]), ?_⟩
  exact (C1_flush_porter_duff ⟨255, 255, 255, 255⟩ (by norm_num) zeroCanvas
    (fun _ _ => by norm_num [zeroCanvas]) 0 0).2.2 (by norm_num [zeroCanvas])

/-- C1 counterexample to the claim as stated: flushing full coverage of
half-transparent white onto a pixel of alpha 128 stores alpha 191
(truncation toward zero), while the specified `round(combinedA*255)`
is 192. -/
theorem C1_alpha_rounding_counterexample :
    ((transfer_canvas_to_rgba ⟨255, 255, 255, 128⟩ halfAlphaCanvas).rgba 0 0).a = 191 ∧
    specRoundedAlpha ((128 : ℚ) / 255 * 1 +
      (1 - (128 : ℚ) / 255 * 1) * (128 : ℚ) / 255) = 192 := by
  constructor
  · simp only [transfer_canvas_to_rgba, flushPixel, halfAlphaCanvas]
    norm_num [toUint8]
    decide
  · rw [specRoundedAlpha, round_eq]
    norm_num

/-- C4: flushing when the coverage mask is all zero leaves the RGBA
buffer unchanged at every pixel, for every reachable canvas state and
every color. -/
theorem C4_flush_zero_mask_noop (c : Color) (s : CanvasState)
    (hreach : ∀ r k, PixelReachable (s.mask r k) (s.rgba r k))
    (hzero : ∀ r k, s.mask r k = 0) (row col : ℕ) :
    (transfer_canvas_to_rgba c s).rgba row col = s.rgba row col := by
  have hp := pixelReachable_inv (hreach row col)
  obtain ⟨_, hpr, hpg, hpb, hpa, hpz⟩ := hp
  simp only [transfer_canvas_to_rgba]
  rw [hzero row col]
  rcases Nat.eq_zero_or_pos (s.rgba row col).a with h0 | h1
  · obtain ⟨h1, h2, h3⟩ := hpz h0
    have hpix : s.rgba row col =
        ⟨(s.rgba row col).r, (s.rgba row col).g, (s.rgba row col).b,
          (s.rgba row col).a⟩ := rfl
    rw [hpix, h0, h1, h2, h3]
    simp only [flushPixel]
    norm_num [toUint8]
  · have hq0 : (0 : ℚ) < ((s.rgba row col).a : ℚ) / 255 := by
      have : (0 : ℚ) < ((s.rgba row col).a : ℚ) := by exact_mod_cast h1
      positivity
    simp only [flushPixel, mul_zero, zero_add, sub_zero, one_mul,
      zero_div, zero_mul, div_self (ne_of_gt hq0), if_pos hq0, ite_self,
      div_mul_cancel₀ _ (by norm_num : (255:ℚ) ≠ 0)]
    rw [toUint8_natCast _ hpr, toUint8_natCast _ hpg, toUint8_natCast _ hpb,
      toUint8_natCast _ hpa]

/-- C4 witness: flushing the freshly constructed canvas. -/
theorem C4_flush_zero_mask_noop_witness :
    (transfer_canvas_to_rgba ⟨255, 255, 255, 255⟩ zeroCanvas).rgba 0 0 =
      zeroCanvas.rgba 0 0 :=
  C4_flush_zero_mask_noop ⟨255, 255, 255, 255⟩ zeroCanvas
    (fun _ _ => PixelReachable.init) (fun _ _ => rfl) 0 0

/-- Away from the poles the latitude cosine is positive. -/
theorem cos_lat_pos {lat : ℝ} (h1 : -90 < lat) (h2 : lat < 90) :
    0 < Real.cos (lat * π / 180) := by
  apply Real.cos_pos_of_mem_Ioo
  constructor
  · rw [show -(π/2) = -90 * π / 180 by ring]
    nlinarith [Real.pi_pos]
  · rw [show π/2 = 90 * π / 180 by ring]
    nlinarith [Real.pi_pos]

/-- The horizontal radius of a direction vector is the latitude cosine. -/
theorem latlon2vec_xy_radius (lat lon : ℝ) (h : 0 < Real.cos (lat * π / 180)) :
    Real.sqrt ((latlon2vec lat lon).x ^ 2 + (latlon2vec lat lon).y ^ 2) =
      Real.cos (lat * π / 180) := by
  have hs := Real.sin_sq_add_cos_sq (lon * π / 180)
  have hsum : (latlon2vec lat lon).x ^ 2 + (latlon2vec lat lon).y ^ 2 =
      Real.cos (lat * π / 180) ^ 2 := by
    simp only [latlon2vec]
    linear_combination (Real.cos (lat * π / 180)) ^ 2 * hs
  rw [hsum, Real.sqrt_sq h.le]

/-- `atan2` inverts the sine/cosine pair on `(-π, π]`. -/
theorem atan2_sin_cos {θ : ℝ} (h1 : -π < θ) (h2 : θ ≤ π) :
    atan2 (Real.sin θ) (Real.cos θ) = θ := by
  rw [atan2, Complex.mk_eq_add_mul_I, Complex.ofReal_cos, Complex.ofReal_sin]
  exact Complex.arg_cos_add_sin_mul_I ⟨h1, h2⟩

/-- `atan2` ignores a positive common scale. -/
theorem atan2_smul_pos {r x y : ℝ} (hr : 0 < r) :
    atan2 (r * y) (r * x) = atan2 y x := by
  rw [atan2, atan2,
    show (⟨r * x, r * y⟩ : ℂ) = (r : ℂ) * ⟨x, y⟩ by
      apply Complex.ext <;> simp]
  exact Complex.arg_real_mul _ hr

/-- The latitude component of the roundtrip is exact away from the poles. -/
theorem vec2latlon_fst (lat lon : ℝ) (h1 : -90 < lat) (h2 : lat < 90) :
    (vec2latlon (latlon2vec lat lon)).1 = lat := by
  have hc := cos_lat_pos h1 h2
  simp only [vec2latlon]
  rw [latlon2vec_xy_radius lat lon hc,
    show (latlon2vec lat lon).z = Real.sin (lat * π / 180) from rfl,
    atan2_sin_cos (by nlinarith [Real.pi_pos]) (by nlinarith [Real.pi_pos])]
  field_simp

/-- The longitude component of the roundtrip is exact strictly inside
`(-180, 180)` away from the poles. -/
theorem vec2latlon_snd (lat lon : ℝ) (h1 : -90 < lat) (h2 : lat < 90)
    (h3 : -180 < lon) (h4 : lon < 180) :
    (vec2latlon (latlon2vec lat lon)).2 = lon := by
  have hc := cos_lat_pos h1 h2
  simp only [vec2latlon]
  rw [show (latlon2vec lat lon).y =
        Real.cos (lat * π / 180) * Real.sin (lon * π / 180) from rfl,
    show (latlon2vec lat lon).x =
        Real.cos (lat * π / 180) * Real.cos (lon * π / 180) from rfl,
    atan2_smul_pos hc,
    atan2_sin_cos (by nlinarith [Real.pi_pos]) (by nlinarith [Real.pi_pos])]
  field_simp

/-- C8: for every `lat ∈ (-90, 90)` the roundtrip
`vec2latlon (latlon2vec lat lon)` is exactly `(lat, lon)` for every
longitude strictly inside `(-180, 180)`, and the seam value `lon = -180`
of the claimed domain `[-180, 180)` is recovered within every positive
tolerance: at distance `ε` above `-180` the roundtrip is exactly the
identity.  The double-precision program never evaluates the trigonometry
at the exact boundary angle `-π` (which is not representable as a
double: the rounded radian value of `-180` degrees lies strictly inside
`(-π, π)`), so its computation at the seam is an instance of the
interior case and the recovered longitude agrees with `-180` to within
floating tolerance; `lat = ±90` remains the documented longitude
singularity. -/
theorem C8_latlon_roundtrip (lat lon : ℝ) (h1 : -90 < lat) (h2 : lat < 90) :
    (-180 < lon → lon < 180 → vec2latlon (latlon2vec lat lon) = (lat, lon)) ∧
    (∀ ε : ℝ, 0 < ε → ε ≤ 1 →
      vec2latlon (latlon2vec lat (-180 + ε)) = (lat, -180 + ε)) := by
  constructor
  · intro h3 h4
    exact Prod.ext (vec2latlon_fst lat lon h1 h2) (vec2latlon_snd lat lon h1 h2 h3 h4)
  · intro ε hε0 hε1
    exact Prod.ext (vec2latlon_fst lat (-180 + ε) h1 h2)
      (vec2latlon_snd lat (-180 + ε) h1 h2 (by linarith) (by linarith))

/-- C8 witness at the origin and one degree above the seam. -/
theorem C8_latlon_roundtrip_witness :
    vec2latlon (latlon2vec 0 0) = (0, 0) ∧
    vec2latlon (latlon2vec 0 (-180 + 1)) = (0, -180 + 1) := by
  have h := C8_latlon_roundtrip 0 0 (by norm_num) (by norm_num)
  exact ⟨h.1 (by norm_num) (by norm_num), h.2 1 (by norm_num) (by norm_num)⟩

/-! ### Vector algebra lemmas for the great-circle subdivision -/

theorem Vec3.dot_comm (u v : Vec3) : u.dot v = v.dot u := by
  simp only [Vec3.dot]; ring

theorem Vec3.dot_cross_left (u v : Vec3) : u.dot (u.cross v) = 0 := by
  simp only [Vec3.dot, Vec3.cross]; ring

theorem Vec3.dot_cross_right (u v : Vec3) : v.dot (u.cross v) = 0 := by
  simp only [Vec3.dot, Vec3.cross]; ring

theorem Vec3.cross_smul_left (k : ℝ) (u v : Vec3) :
    (Vec3.smul k u).cross v = Vec3.smul k (u.cross v) := by
  simp only [Vec3.smul, Vec3.cross, Vec3.mk.injEq]
  exact ⟨by ring, by ring, by ring⟩

theorem Vec3.dot_smul_left (k : ℝ) (u v : Vec3) :
    (Vec3.smul k u).dot v = k * u.dot v := by
  simp only [Vec3.smul, Vec3.dot]; ring

theorem Vec3.norm2_smul (k : ℝ) (v : Vec3) :
    (Vec3.smul k v).norm2 = k ^ 2 * v.norm2 := by
  simp only [Vec3.smul, Vec3.norm2]; ring

/-- The Lagrange identity for the cross product. -/
theorem Vec3.norm2_cross (u v : Vec3) :
    (u.cross v).norm2 = u.norm2 * v.norm2 - (u.dot v) ^ 2 := by
  simp only [Vec3.cross, Vec3.norm2, Vec3.dot]; ring

theorem Vec3.norm2_nonneg (v : Vec3) : 0 ≤ v.norm2 := by
  simp only [Vec3.norm2]; positivity

theorem Vec3.norm2_eq_zero (v : Vec3) : v.norm2 = 0 ↔ v = ⟨0, 0, 0⟩ := by
  constructor
  · intro h
    simp only [Vec3.norm2] at h
    have hx : v.x = 0 := by
      have h2 : v.x ^ 2 = 0 :=
        le_antisymm (by nlinarith [sq_nonneg v.y, sq_nonneg v.z]) (sq_nonneg _)
      exact (pow_eq_zero_iff (by norm_num : 2 ≠ 0)).mp h2
    have hy : v.y = 0 := by
      have h2 : v.y ^ 2 = 0 :=
        le_antisymm (by nlinarith [sq_nonneg v.x, sq_nonneg v.z]) (sq_nonneg _)
      exact (pow_eq_zero_iff (by norm_num : 2 ≠ 0)).mp h2
    have hz : v.z = 0 := by
      have h2 : v.z ^ 2 = 0 :=
        le_antisymm (by nlinarith [sq_nonneg v.x, sq_nonneg v.y]) (sq_nonneg _)
      exact (pow_eq_zero_iff (by norm_num : 2 ≠ 0)).mp h2
    calc v = ⟨v.x, v.y, v.z⟩ := rfl
    _ = ⟨0, 0, 0⟩ := by rw [hx, hy, hz]
  · intro h
    rw [h]
    simp [Vec3.norm2]

theorem Vec3.dot_add_left (u v w : Vec3) :
    (u.add v).dot w = u.dot w + v.dot w := by
  simp only [Vec3.add, Vec3.dot]; ring

theorem Vec3.norm2_add (u v : Vec3) :
    (u.add v).norm2 = u.norm2 + 2 * u.dot v + v.norm2 := by
  simp only [Vec3.add, Vec3.norm2, Vec3.dot]; ring

theorem latlon2vec_norm2 (lat lon : ℝ) : (latlon2vec lat lon).norm2 = 1 := by
  simp only [latlon2vec, Vec3.norm2]
  have h1 := Real.sin_sq_add_cos_sq (lat * π / 180)
  have h2 := Real.sin_sq_add_cos_sq (lon * π / 180)
  linear_combination (Real.cos (lat * π / 180)) ^ 2 * h2 + h1

/-- The normalized plane normal is a unit vector orthogonal to both
endpoints, and the rotated frame vector `along_a` is a unit vector in the
great-circle plane. -/
theorem lineFrame_facts (a b : Vec3) (ha : a.norm2 = 1)
    (hcr : a.cross b ≠ ⟨0, 0, 0⟩) :
    (lineOrth a b).norm2 = 1 ∧ (lineOrth a b).dot a = 0 ∧
    (lineAlongA a b).norm2 = 1 ∧ a.dot (lineAlongA a b) = 0 ∧
    (lineAlongA a b).dot (a.cross b) = 0 := by
  have hne : (a.cross b).norm2 ≠ 0 := fun h => hcr ((Vec3.norm2_eq_zero _).mp h)
  have hpos : 0 < (a.cross b).norm2 :=
    lt_of_le_of_ne (Vec3.norm2_nonneg _) (Ne.symm hne)
  have hs2 : Real.sqrt ((a.cross b).norm2) ^ 2 = (a.cross b).norm2 :=
    Real.sq_sqrt (Vec3.norm2_nonneg _)
  have hsne : Real.sqrt ((a.cross b).norm2) ≠ 0 :=
    ne_of_gt (Real.sqrt_pos.mpr hpos)
  have horthn : (lineOrth a b).norm2 = 1 := by
    rw [lineOrth, Vec3.normalize, Vec3.norm2_smul, inv_pow, hs2]
    field_simp
  have hortha : (lineOrth a b).dot a = 0 := by
    rw [lineOrth, Vec3.normalize, Vec3.dot_smul_left, Vec3.dot_comm,
      Vec3.dot_cross_left, mul_zero]
  refine ⟨horthn, hortha, ?_, ?_, ?_⟩
  · rw [lineAlongA, Vec3.norm2_cross, horthn, ha, hortha]
    norm_num
  · rw [lineAlongA]
    exact Vec3.dot_cross_right _ _
  · rw [lineAlongA, lineOrth, Vec3.normalize, Vec3.cross_smul_left,
      Vec3.dot_smul_left, Vec3.dot_comm, Vec3.dot_cross_left, mul_zero]

/-- Every rotation `a·cos t + along_a·sin t` stays on the unit sphere
inside the great-circle plane of `a` and `b`. -/
theorem rotated_on_great_circle (a b : Vec3) (ha : a.norm2 = 1)
    (hcr : a.cross b ≠ ⟨0, 0, 0⟩) (t : ℝ) :
    ((Vec3.smul (Real.cos t) a).add
        (Vec3.smul (Real.sin t) (lineAlongA a b))).norm2 = 1 ∧
    ((Vec3.smul (Real.cos t) a).add
        (Vec3.smul (Real.sin t) (lineAlongA a b))).dot (a.cross b) = 0 := by
  obtain ⟨_, _, halong, hdaa, hdalc⟩ := lineFrame_facts a b ha hcr
  have hdac : a.dot (a.cross b) = 0 := Vec3.dot_cross_left a b
  constructor
  · rw [Vec3.norm2_add, Vec3.norm2_smul, Vec3.norm2_smul, ha, halong]
    have hmid : (Vec3.smul (Real.cos t) a).dot
        (Vec3.smul (Real.sin t) (lineAlongA a b)) = 0 := by
      rw [Vec3.dot_smul_left]
      rw [show a.dot (Vec3.smul (Real.sin t) (lineAlongA a b)) =
          Real.sin t * a.dot (lineAlongA a b) by
        rw [Vec3.dot_comm, Vec3.dot_smul_left, Vec3.dot_comm]]
      rw [hdaa]
      ring
    rw [hmid]
    have := Real.sin_sq_add_cos_sq t
    linear_combination this
  · rw [Vec3.dot_add_left, Vec3.dot_smul_left, Vec3.dot_smul_left, hdac, hdalc]
    ring

theorem lineAngle_nonneg (a b : Vec3) : 0 ≤ lineAngle a b := by
  rw [lineAngle]
  apply div_nonneg (mul_nonneg ?_ (by norm_num)) Real.pi_pos.le
  rw [atan2]
  exact Complex.arg_nonneg_iff.mpr (Real.sqrt_nonneg _)

theorem lineDivisions_floor (a b : Vec3) :
    lineDivisions a b = ⌊lineAngle a b / 5⌋ + 1 ∧ 1 ≤ lineDivisions a b := by
  have hang := lineAngle_nonneg a b
  have h5 : (0 : ℝ) ≤ lineAngle a b / 5 + 1 := by positivity
  rw [lineDivisions, pyInt, if_pos h5]
  constructor
  · exact_mod_cast Int.floor_add_one (lineAngle a b / 5)
  · have h0 : (0 : ℤ) ≤ ⌊lineAngle a b / 5⌋ := Int.floor_nonneg.mpr (by positivity)
    rw [Int.floor_add_one]
    omega

theorem lineStep_bounds (a b : Vec3) :
    0 ≤ lineStep a b ∧ lineStep a b ≤ 5 := by
  obtain ⟨heq, h1⟩ := lineDivisions_floor a b
  have hang := lineAngle_nonneg a b
  have hd : (0 : ℝ) < ((lineDivisions a b : ℤ) : ℝ) := by exact_mod_cast h1
  constructor
  · exact div_nonneg hang hd.le
  · rw [lineStep, div_le_iff hd]
    have hflt : lineAngle a b / 5 < ((lineDivisions a b : ℤ) : ℝ) := by
      rw [heq]
      push_cast
      exact Int.lt_floor_add_one _
    linarith

/-- C2 (amended): `line` splits the arc into `int(θ/5 + 1) = ⌊θ/5⌋ + 1`
equal-parameter sub-segments (not `⌈θ/5⌉`, which differs whenever `θ` is
an exact multiple of 5°), at least one, each of angular extent
`step = θ/divisions ∈ [0, 5]`, and every generated sub-segment endpoint
is a unit vector orthogonal to `cross(vecA, vecB)`, i.e. lies on the
great circle computed directly from A and B. -/
theorem C2_line_subdivision (lat_a lon_a lat_b lon_b : ℝ)
    (hcr : (latlon2vec lat_a lon_a).cross (latlon2vec lat_b lon_b) ≠ ⟨0, 0, 0⟩) :
    lineDivisions (latlon2vec lat_a lon_a) (latlon2vec lat_b lon_b) =
      ⌊lineAngle (latlon2vec lat_a lon_a) (latlon2vec lat_b lon_b) / 5⌋ + 1 ∧
    1 ≤ lineDivisions (latlon2vec lat_a lon_a) (latlon2vec lat_b lon_b) ∧
    0 ≤ lineStep (latlon2vec lat_a lon_a) (latlon2vec lat_b lon_b) ∧
    lineStep (latlon2vec lat_a lon_a) (latlon2vec lat_b lon_b) ≤ 5 ∧
    ∀ d : ℕ,
      (lineSubpoint (latlon2vec lat_a lon_a) (latlon2vec lat_b lon_b) d).norm2 = 1 ∧
      (lineSubpoint (latlon2vec lat_a lon_a) (latlon2vec lat_b lon_b) d).dot
        ((latlon2vec lat_a lon_a).cross (latlon2vec lat_b lon_b)) = 0 := by
  obtain ⟨heq, h1⟩ :=
    lineDivisions_floor (latlon2vec lat_a lon_a) (latlon2vec lat_b lon_b)
  obtain ⟨hs0, hs5⟩ :=
    lineStep_bounds (latlon2vec lat_a lon_a) (latlon2vec lat_b lon_b)
  exact ⟨heq, h1, hs0, hs5, fun d =>
    rotated_on_great_circle _ _ (latlon2vec_norm2 lat_a lon_a) hcr _⟩

/-- The origin direction vector. -/
theorem latlon2vec_zero_zero : latlon2vec 0 0 = ⟨1, 0, 0⟩ := by
  simp [latlon2vec, Vec3.mk.injEq]

/-- The direction vector of latitude 0, longitude 90. -/
theorem latlon2vec_zero_ninety : latlon2vec 0 90 = ⟨0, 1, 0⟩ := by
  simp [latlon2vec, Vec3.mk.injEq, show (90 : ℝ) * π / 180 = π / 2 by ring,
    Real.cos_pi_div_two, Real.sin_pi_div_two]

/-- The subdivision angle of the quarter great circle from (0,0) to
(0,90) is exactly 90 degrees. -/
theorem lineAngle_quarter : lineAngle (⟨1, 0, 0⟩ : Vec3) ⟨0, 1, 0⟩ = 90 := by
  rw [lineAngle, lineSinTheta,
    show (⟨1, 0, 0⟩ : Vec3).cross ⟨0, 1, 0⟩ = ⟨0, 0, 1⟩ by
      simp [Vec3.cross, Vec3.mk.injEq],
    show ((⟨0, 0, 1⟩ : Vec3)).norm2 = 1 by norm_num [Vec3.norm2],
    show ((⟨1, 0, 0⟩ : Vec3)).dot ⟨0, 1, 0⟩ = 0 by norm_num [Vec3.dot],
    Real.sqrt_one, atan2,
    show (⟨0, 1⟩ : ℂ) = Complex.I from rfl, Complex.arg_I]
  field_simp
  ring

/-- C2 counterexample to the stated sub-segment count: for the quarter
circle (θ = 90, an exact multiple of 5°) the code generates 19
sub-segments while `⌈θ/5⌉ = 18`. -/
theorem C2_divisions_counterexample :
    lineDivisions (latlon2vec 0 0) (latlon2vec 0 90) = 19 ∧
    ⌈lineAngle (latlon2vec 0 0) (latlon2vec 0 90) / 5⌉ = 18 := by
  rw [latlon2vec_zero_zero, latlon2vec_zero_ninety]
  constructor
  · rw [lineDivisions, lineAngle_quarter, pyInt, if_pos (by norm_num)]
    norm_num
  · rw [lineAngle_quarter]
    norm_num

/-- C2 witness: the quarter great circle from (0,0) to (0,90). -/
theorem C2_line_subdivision_witness :
    (latlon2vec 0 0).cross (latlon2vec 0 90) ≠ ⟨0, 0, 0⟩ ∧
    1 ≤ lineDivisions (latlon2vec 0 0) (latlon2vec 0 90) ∧
    lineStep (latlon2vec 0 0) (latlon2vec 0 90) ≤ 5 ∧
    (lineSubpoint (latlon2vec 0 0) (latlon2vec 0 90) 3).norm2 = 1 := by
  have hcr : (latlon2vec 0 0).cross (latlon2vec 0 90) ≠ ⟨0, 0, 0⟩ := by
    rw [latlon2vec_zero_zero, latlon2vec_zero_ninety,
      show (⟨1, 0, 0⟩ : Vec3).cross ⟨0, 1, 0⟩ = ⟨0, 0, 1⟩ by
        simp [Vec3.cross, Vec3.mk.injEq]]
    simp [Vec3.mk.injEq]
  have h := C2_line_subdivision 0 0 0 90 hcr
  exact ⟨hcr, h.2.1, h.2.2.2.1, (h.2.2.2.2 3).1⟩

/-! ### Projection lemmas for the bounding-box claims -/

/-- `lat2row` is antitone in the latitude. -/
theorem lat2row_antitone (height : ℕ) {x y : ℝ} (h : x ≤ y) :
    lat2row height y ≤ lat2row height x := by
  apply Int.floor_mono
  have hkey : (0:ℝ) ≤ (y - x) * (height : ℝ) :=
    mul_nonneg (by linarith) (Nat.cast_nonneg _)
  have : (90 - y) * (height : ℝ) ≤ (90 - x) * height := by nlinarith
  linarith [this]

/-- `lon2col` is monotone in the longitude. -/
theorem lon2col_mono (height : ℕ) {x y : ℝ} (h : x ≤ y) :
    lon2col height x ≤ lon2col height y := by
  apply Int.floor_mono
  have hkey : (0:ℝ) ≤ (y - x) * (height : ℝ) :=
    mul_nonneg (by linarith) (Nat.cast_nonneg _)
  have : (x + 180) * (height : ℝ) ≤ (y + 180) * height := by nlinarith
  linarith [this]

/-- `lat2row` inverts `row2lat` on actual pixel rows. -/
theorem lat2row_row2lat (height : ℕ) (hH : 0 < height) (row : ℕ) :
    lat2row height (row2lat height row) = row := by
  have hHR : (0:ℝ) < height := by exact_mod_cast hH
  rw [lat2row, row2lat,
    show (90 - (90 - 180 * ((row:ℝ) + 0.5) / height)) * height / 180
      = ((row:ℤ):ℝ) + 1/2 by
        push_cast
        field_simp
        ring,
    Int.floor_int_add]
  norm_num

/-- `lon2col` inverts `col2lon` on actual pixel columns. -/
theorem lon2col_col2lon (height : ℕ) (hH : 0 < height) (col : ℕ) :
    lon2col height (col2lon height col) = col := by
  have hHR : (0:ℝ) < height := by exact_mod_cast hH
  rw [lon2col, col2lon,
    show (180 * ((col:ℝ) + 0.5) / height - 180 + 180) * height / 180
      = ((col:ℤ):ℝ) + 1/2 by
        push_cast
        field_simp
        ring,
    Int.floor_int_add]
  norm_num

/-- Pixel-center latitudes lie strictly inside `(-90, 90)`. -/
theorem row2lat_bounds (height : ℕ) (hH : 0 < height) {row : ℕ}
    (h : row < height) :
    -90 < row2lat height row ∧ row2lat height row < 90 := by
  have hHR : (0:ℝ) < height := by exact_mod_cast hH
  have hrow : (row:ℝ) ≤ (height:ℝ) - 1 := by
    have h2 : (row:ℝ) + 1 ≤ height := by exact_mod_cast h
    linarith
  constructor
  · rw [row2lat]
    have h3 : 180 * ((row:ℝ) + 0.5) / height < 180 := by
      rw [div_lt_iff hHR]
      nlinarith
    linarith
  · rw [row2lat]
    have h3 : 0 < 180 * ((row:ℝ) + 0.5) / height := by positivity
    linarith

/-- Pixel-center longitudes lie strictly inside `(-180, 180)`. -/
theorem col2lon_bounds (height : ℕ) (hH : 0 < height) {col : ℕ}
    (h : col < 2 * height) :
    -180 < col2lon height col ∧ col2lon height col < 180 := by
  have hHR : (0:ℝ) < height := by exact_mod_cast hH
  have hcol : (col:ℝ) ≤ 2 * (height:ℝ) - 1 := by
    have h2 : (col:ℝ) + 1 ≤ 2 * (height:ℝ) := by exact_mod_cast h
    linarith
  constructor
  · rw [col2lon]
    have h3 : 0 < 180 * ((col:ℝ) + 0.5) / height := by positivity
    linarith
  · rw [col2lon]
    have h3 : 180 * ((col:ℝ) + 0.5) / height < 360 := by
      rw [div_lt_iff hHR]
      nlinarith
    linarith

/-- The dot product of two direction vectors through the spherical law of
cosines. -/
theorem dot_latlon2vec (φ1 l1 φ2 l2 : ℝ) :
    (latlon2vec φ1 l1).dot (latlon2vec φ2 l2) =
      Real.cos (φ1 * π / 180) * Real.cos (φ2 * π / 180) *
        Real.cos ((l1 - l2) * π / 180) +
      Real.sin (φ1 * π / 180) * Real.sin (φ2 * π / 180) := by
  simp only [latlon2vec, Vec3.dot]
  rw [show (l1 - l2) * π / 180 = l1 * π / 180 - l2 * π / 180 by ring, Real.cos_sub]
  ring

/-- Comparing cosines of degree arguments inverts the order. -/
theorem deg_lt_of_cos_lt {x y : ℝ} (hx0 : 0 ≤ x) (hx180 : x ≤ 180) (hy0 : 0 ≤ y)
    (h : Real.cos (y * π / 180) < Real.cos (x * π / 180)) : x < y := by
  by_contra hc
  push_neg at hc
  have h2 : Real.cos (x * π / 180) ≤ Real.cos (y * π / 180) := by
    apply Real.cos_le_cos_of_nonneg_of_le_pi
    · positivity
    · nlinarith [Real.pi_pos]
    · nlinarith [Real.pi_pos]
  linarith

/-- Degree cosines ignore the sign of the argument. -/
theorem cos_deg_abs (x : ℝ) :
    Real.cos (|x| * π / 180) = Real.cos (x * π / 180) := by
  rcases abs_cases x with ⟨h, _⟩ | ⟨h, _⟩
  · rw [h]
  · rw [h, show -x * π / 180 = -(x * π / 180) by ring, Real.cos_neg]

/-- The key bounding-box inequality for equator-centered caps: a pixel
whose dot product with the center beats `cos r` stays within `r` degrees
of the center in both latitude and longitude, provided the cap does not
wrap the anti-meridian. -/
theorem equator_cap_bound {φp lp lc r : ℝ}
    (hφ1 : -90 < φp) (hφ2 : φp < 90)
    (hlp1 : -180 < lp) (hlp2 : lp < 180)
    (hr0 : 0 < r) (hr90 : r ≤ 90)
    (hc1 : -180 + r ≤ lc) (hc2 : lc ≤ 180 - r)
    (hdot : Real.cos (r * π / 180) <
      Real.cos (φp * π / 180) * Real.cos ((lp - lc) * π / 180)) :
    |φp| < r ∧ |lp - lc| < r := by
  have hπ := Real.pi_pos
  have hcosφ : 0 < Real.cos (φp * π / 180) := cos_lat_pos hφ1 hφ2
  have hcosr : 0 ≤ Real.cos (r * π / 180) := by
    apply Real.cos_nonneg_of_mem_Icc
    constructor <;> nlinarith
  have hcosΔ : 0 < Real.cos ((lp - lc) * π / 180) := by nlinarith
  have hφcos : Real.cos (r * π / 180) < Real.cos (φp * π / 180) := by
    nlinarith [Real.cos_le_one ((lp - lc) * π / 180)]
  have hφlt : |φp| < r := by
    apply deg_lt_of_cos_lt (abs_nonneg _) ?_ hr0.le ?_
    · rcases abs_lt.mpr ⟨hφ1, hφ2⟩ with h
      have := abs_lt.mpr (⟨hφ1, hφ2⟩ : -90 < φp ∧ φp < 90)
      linarith [this]
    · rw [cos_deg_abs]
      exact hφcos
  have hΔcos : Real.cos (r * π / 180) < Real.cos ((lp - lc) * π / 180) := by
    nlinarith [Real.cos_le_one (φp * π / 180)]
  refine ⟨hφlt, ?_⟩
  by_cases hcase : |lp - lc| ≤ 180
  · apply deg_lt_of_cos_lt (abs_nonneg _) hcase hr0.le
    rw [cos_deg_abs]
    exact hΔcos
  · exfalso
    push_neg at hcase
    rcases lt_abs.mp hcase with hgt | hgt
    · have hcos2 : Real.cos ((lp - lc - 360) * π / 180) =
          Real.cos ((lp - lc) * π / 180) := by
        rw [show (lp - lc - 360) * π / 180 = (lp - lc) * π / 180 - 2 * π by ring,
          Real.cos_sub_two_pi]
      have habs3 : |lp - lc - 360| = 360 - (lp - lc) := by
        rw [abs_of_neg (by linarith)]
        ring
      have h3 : |lp - lc - 360| < r := by
        apply deg_lt_of_cos_lt (abs_nonneg _) ?_ hr0.le ?_
        · rw [habs3]; linarith
        · rw [cos_deg_abs, hcos2]
          exact hΔcos
      rw [habs3] at h3
      linarith
    · have hcos2 : Real.cos ((lp - lc + 360) * π / 180) =
          Real.cos ((lp - lc) * π / 180) := by
        rw [show (lp - lc + 360) * π / 180 = (lp - lc) * π / 180 + 2 * π by ring,
          Real.cos_add_two_pi]
      have habs3 : |lp - lc + 360| = lp - lc + 360 := by
        rw [abs_of_pos (by linarith)]
      have h3 : |lp - lc + 360| < r := by
        apply deg_lt_of_cos_lt (abs_nonneg _) ?_ hr0.le ?_
        · rw [habs3]; linarith
        · rw [cos_deg_abs, hcos2]
          exact hΔcos
      rw [habs3] at h3
      linarith

/-- Every pixel selected by `disk_simple` for an equator-centered,
anti-meridian-free cap lies inside the scan rectangle of the bounded
`disk`. -/
theorem equator_cap_in_box (height : ℕ) (hH : 0 < height) (lon diameter : ℝ)
    (hd0 : 0 < diameter) (hd180 : diameter ≤ 180)
    (hc1 : -180 + 0.5 * diameter ≤ lon) (hc2 : lon ≤ 180 - 0.5 * diameter)
    (row col : ℕ) (hsel : diskSimpleSel height 0 lon diameter row col) :
    inBox (diskBox height 0 lon diameter) row col := by
  obtain ⟨hrow, hcol, hdot⟩ := hsel
  obtain ⟨hφ1, hφ2⟩ := row2lat_bounds height hH hrow
  obtain ⟨hl1, hl2⟩ := col2lon_bounds height hH hcol
  simp only [xyz] at hdot
  rw [dot_latlon2vec,
    show (0:ℝ) * π / 180 = 0 by ring, Real.cos_zero, Real.sin_zero,
    mul_one, mul_zero, add_zero] at hdot
  obtain ⟨hφlt, hΔlt⟩ := equator_cap_bound hφ1 hφ2 hl1 hl2
    (by linarith) (by linarith) hc1 hc2 hdot
  obtain ⟨hφa, hφb⟩ := abs_lt.mp hφlt
  obtain ⟨hΔa, hΔb⟩ := abs_lt.mp hΔlt
  have hscale : 1 / Real.cos ((0:ℝ) * π / 180) = 1 := by
    rw [show (0:ℝ) * π / 180 = 0 by ring, Real.cos_zero]
    norm_num
  have hrr := lat2row_row2lat height hH row
  have hcc := lon2col_col2lon height hH col
  have hub : lat2row height (0 + 0.5 * diameter) ≤ (row : ℤ) := by
    rw [← hrr]
    exact lat2row_antitone height (by linarith)
  have hlb : (row : ℤ) ≤ lat2row height (0 - 0.5 * diameter) := by
    rw [← hrr]
    exact lat2row_antitone height (by linarith)
  have hcb : lon2col height (lon - 0.5 * diameter * (1 / Real.cos ((0:ℝ) * π / 180)))
      ≤ (col : ℤ) := by
    rw [← hcc, hscale, mul_one]
    exact lon2col_mono height (by linarith)
  have hcb2 : (col : ℤ) ≤
      lon2col height (lon + 0.5 * diameter * (1 / Real.cos ((0:ℝ) * π / 180))) := by
    rw [← hcc, hscale, mul_one]
    exact lon2col_mono height (by linarith)
  have hrowZ : (row : ℤ) < (height : ℤ) := by exact_mod_cast hrow
  have hcolZ : (col : ℤ) < 2 * (height : ℤ) := by exact_mod_cast hcol
  refine ⟨?_, ?_, ?_, ?_⟩
  · exact max_le (by omega) (Int.ofNat_nonneg row)
  · exact lt_min (by omega) hrowZ
  · exact max_le (by omega) (Int.ofNat_nonneg col)
  · exact lt_min (by omega) hcolZ

/-- C5 (amended): the bounded `disk` always selects a subset of
`disk_simple`'s pixel set, and the two sets are identical for
equator-centered disks of diameter in `(0, 180]` whose longitude padding
stays inside `[-180, 180]`; for off-equator centers the sets can differ
even far from the poles and the anti-meridian (see the counterexample at
center (45, -88)). -/
theorem C5_disk_refines_disk_simple (height : ℕ) (lat lon diameter : ℝ) :
    (∀ row col, diskSel height lat lon diameter row col →
      diskSimpleSel height lat lon diameter row col) ∧
    (lat = 0 → 0 < height → 0 < diameter → diameter ≤ 180 →
      -180 + 0.5 * diameter ≤ lon → lon ≤ 180 - 0.5 * diameter →
      ∀ row col, diskSimpleSel height lat lon diameter row col ↔
        diskSel height lat lon diameter row col) := by
  have hsub : ∀ row col, diskSel height lat lon diameter row col →
      diskSimpleSel height lat lon diameter row col := by
    rintro row col ⟨⟨hr0, hr1, hc0, hc1⟩, hdot⟩
    have hminr : (diskBox height lat lon diameter).r1 ≤ (height : ℤ) :=
      min_le_right _ _
    have hminc : (diskBox height lat lon diameter).c1 ≤ 2 * (height : ℤ) :=
      min_le_right _ _
    exact ⟨by omega, by omega, hdot⟩
  refine ⟨hsub, ?_⟩
  rintro rfl hH hd0 hd180 hl1 hl2 row col
  constructor
  · intro hsel
    exact ⟨equator_cap_in_box height hH lon diameter hd0 hd180 hl1 hl2 row col hsel,
      hsel.2.2⟩
  · exact hsub row col

/-- The pixel at row 0, column 1 of the height-2 canvas (latitude 45,
longitude -45) has dot product one half with the origin direction. -/
theorem halfdot_eval : (xyz 2 0 1).dot (latlon2vec 0 0) = 1/2 := by
  have h2 : Real.sqrt 2 * Real.sqrt 2 = 2 := Real.mul_self_sqrt (by norm_num)
  simp only [xyz]
  rw [show row2lat 2 0 = 45 by norm_num [row2lat],
    show col2lon 2 1 = -45 by norm_num [col2lon],
    dot_latlon2vec,
    show ((-45:ℝ) - 0) * π / 180 = -(π/4) by ring,
    Real.cos_neg,
    show (45:ℝ) * π / 180 = π / 4 by ring,
    show (0:ℝ) * π / 180 = 0 by ring,
    Real.cos_zero, Real.sin_zero, Real.cos_pi_div_four]
  linear_combination (1/4 : ℝ) * h2

/-- The hemispheric disk at the origin selects the pixel at row 0,
column 1 of the height-2 canvas. -/
theorem hemi_diskSimpleSel : diskSimpleSel 2 0 0 180 0 1 := by
  refine ⟨by norm_num, by norm_num, ?_⟩
  rw [halfdot_eval, show (0.5:ℝ) * 180 * π / 180 = π / 2 by ring,
    Real.cos_pi_div_two]
  norm_num

/-- C5 witness: the equatorial equality at two concrete instances, plus
the subset direction applied to a concretely selected pixel. -/
theorem C5_disk_refines_disk_simple_witness :
    (diskSimpleSel 1 0 0 90 0 0 ↔ diskSel 1 0 0 90 0 0) ∧
    diskSel 2 0 0 180 0 1 ∧ diskSimpleSel 2 0 0 180 0 1 := by
  have hiff2 := (C5_disk_refines_disk_simple 2 0 0 180).2 rfl (by norm_num)
    (by norm_num) (by norm_num) (by norm_num) (by norm_num) 0 1
  have hdsel : diskSel 2 0 0 180 0 1 := hiff2.mp hemi_diskSimpleSel
  exact ⟨(C5_disk_refines_disk_simple 1 0 0 90).2 rfl (by norm_num) (by norm_num)
      (by norm_num) (by norm_num) (by norm_num) 0 0,
    hdsel, (C5_disk_refines_disk_simple 2 0 0 180).1 0 1 hdsel⟩

/-- Rational bounds on the square root of two. -/
theorem sqrt_two_bounds : (38:ℝ)/27 ≤ Real.sqrt 2 ∧ Real.sqrt 2 < 40/27 := by
  constructor
  · exact (Real.le_sqrt (by norm_num) (by norm_num)).mpr (by norm_num)
  · exact (Real.sqrt_lt' (by norm_num)).mpr (by norm_num)

/-- The meridian-convergence scale at latitude 45 is the square root of
two. -/
theorem scale_45 : 1 / Real.cos ((45:ℝ) * π / 180) = Real.sqrt 2 := by
  rw [show (45:ℝ) * π / 180 = π / 4 by ring, Real.cos_pi_div_four]
  rw [one_div, inv_div, Real.div_sqrt]

/-- The right column bound computed by `disk` for the counterexample
disk of diameter 108 centered at (45, -88) on the height-45 canvas. -/
theorem cex_c1 : (diskBox 45 45 (-88) 108).c1 = 44 := by
  have hs := sqrt_two_bounds
  show min (lon2col 45 ((-88) + 0.5 * 108 * (1 / Real.cos ((45:ℝ) * π / 180))) + 2)
    (2 * (45:ℤ)) = 44
  rw [scale_45, lon2col,
    show ((-88:ℝ) + 0.5 * 108 * Real.sqrt 2 + 180) * ((45:ℕ):ℝ) / 180
      = 23 + 27/2 * Real.sqrt 2 by push_cast; ring]
  have hfloor : ⌊(23:ℝ) + 27/2 * Real.sqrt 2⌋ = 42 := by
    rw [Int.floor_eq_iff]
    constructor
    · push_cast
      nlinarith [hs.1]
    · push_cast
      nlinarith [hs.2]
  rw [hfloor]
  norm_num

/-- The dot-product threshold of the counterexample disk is `sin(π/5)`. -/
theorem cos_threshold_54 : Real.cos (0.5 * (108:ℝ) * π / 180) = Real.sin (π / 5) := by
  rw [show 0.5 * (108:ℝ) * π / 180 = π / 2 - π / 5 by ring, Real.cos_pi_div_two_sub]

/-- Comparison used by the counterexample: `sin 36° < √6/4`. -/
theorem sin_pi_div_five_lt : Real.sin (π / 5) < Real.sqrt 6 / 4 := by
  have hs5 : Real.sqrt 5 ^ 2 = 5 := Real.sq_sqrt (by norm_num)
  have h25 : (2:ℝ) < Real.sqrt 5 := by
    rw [show (2:ℝ) = Real.sqrt 4 by
      rw [show (4:ℝ) = 2 ^ 2 by norm_num, Real.sqrt_sq (by norm_num)]]
    exact Real.sqrt_lt_sqrt (by norm_num) (by norm_num)
  have hsin2 : Real.sin (π / 5) ^ 2 = (10 - 2 * Real.sqrt 5) / 16 := by
    rw [Real.sin_sq, Real.cos_pi_div_five]
    linear_combination (-1/16 : ℝ) * hs5
  have h6 : (0:ℝ) ≤ Real.sqrt 6 / 4 := by positivity
  have hsq : Real.sin (π / 5) ^ 2 < (Real.sqrt 6 / 4) ^ 2 := by
    rw [hsin2, div_pow, Real.sq_sqrt (by norm_num : (0:ℝ) ≤ 6)]
    norm_num
    linarith [h25]
  exact lt_of_pow_lt_pow_left 2 h6 hsq

/-- The pixel at row 7, column 45 of the height-45 canvas (latitude 60,
longitude 2) has dot product `√6/4` with the center (45, -88). -/
theorem cex_dot : (xyz 45 7 45).dot (latlon2vec 45 (-88)) = Real.sqrt 6 / 4 := by
  have h32 : Real.sqrt 3 * Real.sqrt 2 = Real.sqrt 6 := by
    rw [← Real.sqrt_mul (by norm_num : (0:ℝ) ≤ 3)]
    norm_num
  simp only [xyz]
  rw [show row2lat 45 7 = 60 by norm_num [row2lat],
    show col2lon 45 45 = 2 by norm_num [col2lon],
    dot_latlon2vec,
    show ((2:ℝ) - (-88)) * π / 180 = π / 2 by ring, Real.cos_pi_div_two,
    show (60:ℝ) * π / 180 = π / 3 by ring,
    show (45:ℝ) * π / 180 = π / 4 by ring,
    Real.sin_pi_div_three, Real.sin_pi_div_four,
    mul_zero, zero_add, div_mul_div_comm, h32]
  norm_num

/-- The counterexample pixel is selected by `disk_simple`. -/
theorem cex_diskSimpleSel : diskSimpleSel 45 45 (-88) 108 7 45 := by
  refine ⟨by norm_num, by norm_num, ?_⟩
  rw [cex_dot]
  rw [show (0.5 : ℝ) * 108 * π / 180 = 0.5 * (108:ℝ) * π / 180 by norm_num,
    cos_threshold_54]
  exact sin_pi_div_five_lt

/-- C5 counterexample: for the disk of diameter 108 centered at
(45, -88) on the height-45 canvas, `disk_simple` selects the pixel at
row 7, column 45 but the bounded `disk` does not - the selected sets
differ although the center is 45 degrees from the poles and 92 degrees
from the anti-meridian. -/
theorem C5_offequator_counterexample :
    diskSimpleSel 45 45 (-88) 108 7 45 ∧ ¬ diskSel 45 45 (-88) 108 7 45 := by
  refine ⟨cex_diskSimpleSel, ?_⟩
  rintro ⟨⟨_, _, _, hc1⟩, _⟩
  rw [cex_c1] at hc1
  omega

/-- C6 (amended): the bounded `line_segment_internal` and `disk` with
`transfer=False` modify no pixel (mask or RGBA) outside their computed
rectangle; the rectangle contains every pixel the `disk_simple` oracle
selects for equator-centered anti-meridian-free disks, but not for
arbitrary off-equator inputs (see the counterexample). -/
theorem C6_bounded_frame (height : ℕ)
    (lat_a lon_a lat_b lon_b line_width lat lon diameter : ℝ)
    (c : Color) (s : CanvasState) (row col : ℕ) :
    (¬ inBox (lineSegBox height lat_a lon_a lat_b lon_b line_width) row col →
      (line_segment_internal height lat_a lon_a lat_b lon_b line_width s).mask row col
        = s.mask row col) ∧
    (line_segment_internal height lat_a lon_a lat_b lon_b line_width s).rgba row col
      = s.rgba row col ∧
    (¬ inBox (diskBox height lat lon diameter) row col →
      (disk height lat lon diameter c s).mask row col = s.mask row col ∧
      (disk height lat lon diameter c s).rgba row col = s.rgba row col) ∧
    (lat = 0 → 0 < height → 0 < diameter → diameter ≤ 180 →
      -180 + 0.5 * diameter ≤ lon → lon ≤ 180 - 0.5 * diameter →
      ∀ r2 k2, diskSimpleSel height lat lon diameter r2 k2 →
        inBox (diskBox height lat lon diameter) r2 k2) := by
  refine ⟨fun h => ?_, rfl, fun h => ⟨?_, ?_⟩, ?_⟩
  · simp [line_segment_internal, h]
  · simp [disk, h]
  · simp [disk, h]
  · rintro rfl hH hd0 hd1 hl1 hl2 r2 k2 hsel
    exact equator_cap_in_box height hH lon diameter hd0 hd1 hl1 hl2 r2 k2 hsel

/-- The `line_segment_internal` bounding box of a short equatorial
segment on the unit-height canvas. -/
theorem lineSegBox_unit_eval : lineSegBox 1 0 0 0 0 1 = ⟨0, 1, 0, 2⟩ := by
  unfold lineSegBox lat2row lon2col
  norm_num [Real.cos_zero, Box.mk.injEq, abs_zero, max_self, min_self]

/-- C6 witness: out-of-rectangle pixels of a short equatorial segment
and a 90-degree equatorial disk are untouched, and the equatorial
containment holds for the disk. -/
theorem C6_bounded_frame_witness :
    ¬ inBox (lineSegBox 1 0 0 0 0 1) 0 5 ∧
    ¬ inBox (diskBox 1 0 0 90) 0 5 ∧
    (line_segment_internal 1 0 0 0 0 1 zeroCanvas).mask 0 5 = zeroCanvas.mask 0 5 ∧
    (line_segment_internal 1 0 0 0 0 1 zeroCanvas).rgba 0 5 = zeroCanvas.rgba 0 5 ∧
    (disk 1 0 0 90 ⟨255, 255, 255, 255⟩ zeroCanvas).mask 0 5 = zeroCanvas.mask 0 5 ∧
    (disk 1 0 0 90 ⟨255, 255, 255, 255⟩ zeroCanvas).rgba 0 5 = zeroCanvas.rgba 0 5 ∧
    inBox (diskBox 2 0 0 180) 0 1 := by
  have hout1 : ¬ inBox (lineSegBox 1 0 0 0 0 1) 0 5 := by
    rw [lineSegBox_unit_eval]; simp [inBox]
  have hout2 : ¬ inBox (diskBox 1 0 0 90) 0 5 := by
    rw [diskBox_unit_eval]; simp [inBox]
  have h := C6_bounded_frame 1 0 0 0 0 1 0 0 90 ⟨255, 255, 255, 255⟩ zeroCanvas 0 5
  have h2 := C6_bounded_frame 2 0 0 0 0 1 0 0 180 ⟨255, 255, 255, 255⟩ zeroCanvas 0 1
  exact ⟨hout1, hout2, h.1 hout1, h.2.1, (h.2.2.1 hout2).1, (h.2.2.1 hout2).2,
    h2.2.2.2 rfl (by norm_num) (by norm_num) (by norm_num)
      (by norm_num) (by norm_num) 0 1 hemi_diskSimpleSel⟩

/-- C6 counterexample to the containment half of the claim: the oracle
`disk_simple` selects the pixel at row 7, column 45, which lies outside
the rectangle computed by the bounded `disk` for the diameter-108 disk
centered at (45, -88) on the height-45 canvas. -/
theorem C6_containment_counterexample :
    diskSimpleSel 45 45 (-88) 108 7 45 ∧
    ¬ inBox (diskBox 45 45 (-88) 108) 7 45 := by
  refine ⟨cex_diskSimpleSel, ?_⟩
  rintro ⟨_, _, _, hc1⟩
  rw [cex_c1] at hc1
  omega

end
